import Mathlib

/-!
Verification development for the datahaven-indexer ingestion pipeline.

The definitions below are a shallow embedding of the TypeScript sources:
  * `src/utils/retry.ts`   — error classification (`isStatePrunedError`, `isNetworkError`);
  * `src/db/types.ts`      — the four persisted document shapes;
  * `src/db/indexer.ts`    — the ingestion loop of `BlockchainIndexer.index`,
    its per-block normalization, and `fetchBlockData`'s pruned-state handling;
  * `src/db/connection.ts` (concatenated into `config.ts` here) — `findMissingBlocks`
    and the start-height resolution used by `index`.

Modelling conventions:
  * JavaScript numbers that can go negative (`blockNum - 1` written into the
    progress record) are `Int`; block heights and counters are `Nat`.
  * Wall-clock fields (`indexedAt`, `lastUpdated`, produced by `new Date()`)
    are omitted: they carry no information about the logic under proof.
  * Remote calls are oracles: a run takes `fetch : Nat → FetchOutcome` giving,
    for each height, the already-retried outcome of `fetchBlockData` (a value,
    the pruned sentinel `null`, or a non-pruned non-network error that the
    method re-throws).  Network-transient errors never leave
    `retryOnNetworkError`, so they do not appear as outcomes.
  * Errors thrown inside the per-block `try` of `index` (normalize/persist
    stage) are an oracle `pfail : Nat → Bool`; all such throws happen before
    the counter increments, which in the source only run after the three
    inserts succeed.
  * The single-threaded `await` loop is modelled as a fuel-indexed step
    function; `outOfFuel` marks a run that has not terminated within the
    given number of outer-loop iterations.
-/

/-! ## Error classification (src/utils/retry.ts) -/

/-- A JavaScript error `code` property: absent/falsy, a number, or a string. -/
inductive ErrCode where
  | none : ErrCode
  | num : Nat → ErrCode
  | str : String → ErrCode
deriving DecidableEq, Repr

/-- The observable part of a JS error value: `error?.message?.toLowerCase() || ''`
is modelled by storing the raw message and lowering at the use site, and
`error?.code || ''` by `ErrCode`. -/
structure JsError where
  message : String
  code : ErrCode
deriving DecidableEq, Repr

/-- `hay` contains `pat` as a contiguous sublist (JS `String.prototype.includes`). -/
def subList : List Char → List Char → Bool
  | _, [] => true
  | [], _ :: _ => false
  | a :: as, p :: ps => (List.isPrefixOf (p :: ps) (a :: as)) || subList as (p :: ps)

/-- JS `hay.includes(pat)` on strings. -/
def strIncludes (hay pat : String) : Bool :=
  subList hay.data pat.data

/-- JS `String.prototype.toLowerCase`, character by character (equivalent to
`String.toLower`, written over the character list so that it evaluates by
kernel reduction). -/
def lowerStr (s : String) : String :=
  ⟨s.data.map Char.toLower⟩

/-- `isStatePrunedError` from src/utils/retry.ts lines 38-47. -/
def isStatePrunedError (e : JsError) : Bool :=
  let errorMessage := lowerStr e.message
  strIncludes errorMessage "state already discarded" ||
  strIncludes errorMessage "unknown block" ||
  e.code == ErrCode.num 4003

/-- `isNetworkError` from src/utils/retry.ts lines 52-79. -/
def isNetworkError (e : JsError) : Bool :=
  let errorMessage := lowerStr e.message
  strIncludes errorMessage "timeout" ||
  strIncludes errorMessage "timed out" ||
  strIncludes errorMessage "econnrefused" ||
  strIncludes errorMessage "econnreset" ||
  strIncludes errorMessage "enotfound" ||
  strIncludes errorMessage "enetunreach" ||
  strIncludes errorMessage "disconnected" ||
  strIncludes errorMessage "websocket is not connected" ||
  strIncludes errorMessage "abnormal closure" ||
  strIncludes errorMessage "connection closed" ||
  strIncludes errorMessage "socket hang up" ||
  strIncludes errorMessage "no response received" ||
  e.code == ErrCode.str "ECONNREFUSED" ||
  e.code == ErrCode.str "ECONNRESET" ||
  e.code == ErrCode.str "ETIMEDOUT" ||
  e.code == ErrCode.str "ENOTFOUND"

/-- How a fetch-stage error is ultimately handled. -/
inductive ErrorAction where
  | retry : ErrorAction
  | skipPruned : ErrorAction
  | propagate : ErrorAction
deriving DecidableEq, Repr

/-- The effective classification implemented by `fetchBlockData`
(src/db/indexer.ts lines 62-90): the error is first tested by
`retryOnNetworkError`'s `shouldRetry = isNetworkError` inside
`retryWithBackoff` (retry.ts lines 105-141); only an error that is not
retried reaches the `isStatePrunedError` test in the `catch`. -/
def classifyFetchError (e : JsError) : ErrorAction :=
  if isNetworkError e then ErrorAction.retry
  else if isStatePrunedError e then ErrorAction.skipPruned
  else ErrorAction.propagate

/-! ## Persisted document shapes (src/db/types.ts) -/

/-- `BlockDocument` (types.ts lines 8-31, minus the wall-clock `indexedAt`). -/
structure BlockDocument where
  number : Nat
  hash : String
  parentHash : String
  stateRoot : String
  extrinsicsRoot : String
  timestamp : Nat
  extrinsicCount : Nat
  eventCount : Nat
  author : Option String
  chainId : Nat
deriving DecidableEq, Repr

/-- `ExtrinsicDocument` (types.ts lines 36-69, minus `indexedAt`); the decoded
argument mapping is the insertion-ordered key/value list the JS object
literal accumulates. -/
structure ExtrinsicDocument where
  blockNumber : Nat
  blockHash : String
  extrinsicIndex : Nat
  hash : String
  pallet : String
  method : String
  args : List (String × String)
  signer : Option String
  success : Bool
  error : Option String
  timestamp : Nat
  nonce : Option Nat
  tip : Option String
  isSigned : Bool
  chainId : Nat
deriving DecidableEq, Repr

/-- `EventDocument` (types.ts lines 74-99, minus `indexedAt`). -/
structure EventDocument where
  blockNumber : Nat
  blockHash : String
  eventIndex : Nat
  extrinsicIndex : Option Nat
  pallet : String
  method : String
  data : List String
  phase : String
  topics : List String
  timestamp : Nat
  chainId : Nat
deriving DecidableEq, Repr

/-- `ScanProgressDocument` (types.ts lines 104-123, minus `lastUpdated`).
`lastIndexedBlock` is an `Int` because the failure path of `index` writes
`blockNum - 1`, which is `-1` when height 0 fails. -/
structure ScanProgressDocument where
  chainId : Nat
  chainName : String
  lastIndexedBlock : Int
  blocksIndexed : Nat
  extrinsicsIndexed : Nat
  eventsIndexed : Nat
  isComplete : Bool
  targetEndBlock : Option Nat
deriving DecidableEq, Repr

/-! ## Raw chain data as delivered by the Polkadot API (indexer.ts lines 35-42) -/

/-- Execution phase of an event record (`record.phase`). -/
inductive Phase where
  | applyExtrinsic : Nat → Phase
  | finalization : Phase
  | initialization : Phase
deriving DecidableEq, Repr

/-- An entry of `allEvents`: the fields of `record`/`record.event` that
`index` reads.  `isSuccessEvt`/`isFailedEvt` are the results of
`api.events.system.ExtrinsicSuccess.is(event)` and `ExtrinsicFailed.is(event)`;
`errData` is `event.data[0].toString()` when that expression evaluates
without throwing, `none` when it throws. -/
structure RawEvent where
  phase : Phase
  pallet : String
  method : String
  isSuccessEvt : Bool
  isFailedEvt : Bool
  errData : Option String
  dataH : List String
  topics : List String
deriving DecidableEq, Repr

/-- An entry of `block.extrinsics`: the fields `index` reads.  `metaOk` is
whether accessing `extrinsic.meta` succeeds; `argNames` are the declared
argument names of `meta.args`; `argVals` are the values of
`extrinsicMethod.args[argIndex].toHuman()`, with `none` when that decoding
expression throws (including an out-of-range index). -/
structure RawExtrinsic where
  hash : String
  pallet : String
  method : String
  metaOk : Bool
  argNames : List String
  argVals : List (Option String)
  signer : Option String
  isSigned : Bool
  nonce : Option Nat
  tip : Option String
deriving DecidableEq, Repr

/-- `FetchedBlockData` (indexer.ts lines 35-42) as consumed by the loop body. -/
structure RawBlock where
  hash : String
  parentHash : String
  stateRoot : String
  extrinsicsRoot : String
  timestampMs : Nat
  extrinsics : List RawExtrinsic
  events : List RawEvent
deriving DecidableEq, Repr

/-- Outcome of `fetchBlockData` for one height: the fetched data, the pruned
sentinel `null` (indexer.ts lines 83-86), or a re-thrown non-pruned,
non-network error (line 88).  Network-transient failures are retried inside
`retryOnNetworkError` and never produce an outcome. -/
inductive FetchOutcome where
  | ok : RawBlock → FetchOutcome
  | pruned : FetchOutcome
  | fatalError : FetchOutcome
deriving DecidableEq, Repr

/-! ## Normalization (indexer.ts lines 175-285) -/

/-- The argument-decoding loop (indexer.ts lines 212-222): `meta.args.forEach`
pairs each declared name with `extrinsicMethod.args[argIndex].toHuman()` and
assigns into the `args` object; the first throw aborts the `forEach` but the
`catch` keeps whatever was already assigned. -/
def decodeArgs : List String → List (Option String) → List (String × String)
  | [], _ => []
  | _ :: _, [] => []
  | n :: ns, v :: vs =>
    match v with
    | some s => (n, s) :: decodeArgs ns vs
    | none => []

/-- The whole `args` computation for one extrinsic: accessing `extrinsic.meta`
may itself throw, in which case the catch leaves `args` empty. -/
def extrinsicArgs (ex : RawExtrinsic) : List (String × String) :=
  if ex.metaOk then decodeArgs ex.argNames ex.argVals else []

/-- One step of the success-classification scan (indexer.ts lines 227-243):
for a record whose phase is apply-extrinsic at this index, an
`ExtrinsicSuccess` marker sets `success := true` (leaving `error` alone), an
`ExtrinsicFailed` marker sets `success := false` and extracts the error
(falling back to "Unknown error"), any other matching record leaves both. -/
def statusStep (index : Nat) (acc : Bool × Option String) (record : RawEvent) :
    Bool × Option String :=
  match record.phase with
  | Phase.applyExtrinsic i =>
    if i == index then
      if record.isSuccessEvt then (true, acc.2)
      else if record.isFailedEvt then (false, some (record.errData.getD "Unknown error"))
      else acc
    else acc
  | _ => acc

/-- The full scan over `eventsArray` with initial `success = false`,
`error = undefined`. -/
def extrinsicStatus (events : List RawEvent) (index : Nat) : Bool × Option String :=
  events.foldl (statusStep index) (false, none)

/-- `phase.type` as rendered by the Polkadot codec. -/
def phaseType : Phase → String
  | Phase.applyExtrinsic _ => "ApplyExtrinsic"
  | Phase.finalization => "Finalization"
  | Phase.initialization => "Initialization"

/-- `forEach` with the element index, used for both extrinsics and events. -/
def mapWithIndex {α β : Type} (f : Nat → α → β) : Nat → List α → List β
  | _, [] => []
  | i, a :: as => f i a :: mapWithIndex f (i + 1) as

/-- The block document prepared at indexer.ts lines 189-201 (`author` is
unconditionally left undefined by the source). -/
def mkBlockDoc (chainId : Nat) (blockNum : Nat) (raw : RawBlock) : BlockDocument :=
  { number := blockNum
    hash := raw.hash
    parentHash := raw.parentHash
    stateRoot := raw.stateRoot
    extrinsicsRoot := raw.extrinsicsRoot
    timestamp := raw.timestampMs
    extrinsicCount := raw.extrinsics.length
    eventCount := raw.events.length
    author := none
    chainId := chainId }

/-- The extrinsic document prepared at indexer.ts lines 207-263 for the
extrinsic at position `index`. -/
def mkExtrinsicDoc (chainId : Nat) (blockNum : Nat) (blockHash : String)
    (timestampMs : Nat) (events : List RawEvent) (index : Nat)
    (ex : RawExtrinsic) : ExtrinsicDocument :=
  let st := extrinsicStatus events index
  { blockNumber := blockNum
    blockHash := blockHash
    extrinsicIndex := index
    hash := ex.hash
    pallet := ex.pallet
    method := ex.method
    args := extrinsicArgs ex
    signer := ex.signer
    success := st.1
    error := st.2
    timestamp := timestampMs
    nonce := if ex.isSigned then ex.nonce else none
    tip := if ex.isSigned then ex.tip else none
    isSigned := ex.isSigned
    chainId := chainId }

/-- The event document prepared at indexer.ts lines 267-285 for the event at
position `eventIndex`. -/
def mkEventDoc (chainId : Nat) (blockNum : Nat) (blockHash : String)
    (timestampMs : Nat) (eventIndex : Nat) (ev : RawEvent) : EventDocument :=
  { blockNumber := blockNum
    blockHash := blockHash
    eventIndex := eventIndex
    extrinsicIndex :=
      match ev.phase with
      | Phase.applyExtrinsic i => some i
      | _ => none
    pallet := ev.pallet
    method := ev.method
    data := ev.dataH
    phase := phaseType ev.phase
    topics := ev.topics
    timestamp := timestampMs
    chainId := chainId }

/-! ## The ingestion loop of `BlockchainIndexer.index` (indexer.ts lines 97-345) -/

/-- The MongoDB collections touched by a run, as append-only logs.
`progressLog` records every `updateScanProgress` upsert in write order. -/
structure Store where
  blocks : List BlockDocument
  extrinsics : List ExtrinsicDocument
  events : List EventDocument
  progressLog : List ScanProgressDocument
deriving DecidableEq, Repr

/-- The mutable state of the loop of `index`: the issue cursor `currentBlock`,
the in-flight `fetchQueue` (represented by the heights whose fetch promises it
holds, in issue order), the three cumulative counters, and the store. -/
structure RunAcc where
  currentBlock : Nat
  fetchQueue : List Nat
  blocksIndexed : Nat
  extrinsicsIndexed : Nat
  eventsIndexed : Nat
  store : Store
deriving DecidableEq, Repr

/-- The payload handed to the `onProgress` callback (indexer.ts lines 23-29,
314-320). -/
structure ProgressPayload where
  lastIndexedBlock : Nat
  blocksIndexed : Nat
  extrinsicsIndexed : Nat
  eventsIndexed : Nat
  activeFetches : Nat
deriving DecidableEq, Repr

/-- Observable persistence operations, in completion order.  The three insert
ops of one height are issued together in one `Promise.all` (indexer.ts lines
288-292) and all complete before the following `updateScanProgress`; emitting
them as three consecutive trace entries records exactly that barrier. -/
inductive Op where
  | persistBlock : Nat → Op
  | persistExtrinsics : Nat → Op
  | persistEvents : Nat → Op
  | updateProgress : Int → Op
deriving DecidableEq, Repr

/-- How a run ends: normal loop exit, an error thrown from the per-block
`try` (caught, progress pinned, re-thrown to the caller), a non-pruned
non-network fetch error (which escapes `index` without touching progress,
since the `await fetchQueue.shift()` sits outside the `try`), or fuel
exhaustion (the source loop did not terminate within the given number of
iterations). -/
inductive RunOutcome where
  | completed : RunOutcome
  | failed : Nat → RunOutcome
  | fetchFailed : Nat → RunOutcome
  | outOfFuel : RunOutcome
deriving DecidableEq, Repr

/-- Result of a run: final state, the `onProgress` payloads in call order,
the persistence-operation trace in completion order, and the outcome. -/
structure RunResult where
  acc : RunAcc
  callbacks : List ProgressPayload
  trace : List Op
  outcome : RunOutcome
deriving DecidableEq, Repr

/-- The inner fill loop (indexer.ts lines 159-162):
`while (fetchQueue.length < concurrency && currentBlock <= endBlock)` push a
fetch for `currentBlock` and advance the cursor.  The loop runs at most
`endBlock + 1 - currentBlock` iterations (each one advances the cursor and
the guard needs `currentBlock ≤ endBlock`), so calling it with exactly that
much fuel reproduces the unbounded JS loop. -/
def fillQueue (concurrency : Int) (endBlock : Nat) : Nat → RunAcc → RunAcc
  | 0, s => s
  | k + 1, s =>
    if (s.fetchQueue.length : Int) < concurrency ∧ s.currentBlock ≤ endBlock then
      fillQueue concurrency endBlock k
        { s with
          fetchQueue := s.fetchQueue ++ [s.currentBlock]
          currentBlock := s.currentBlock + 1 }
    else s

/-- The successful per-block body (indexer.ts lines 175-321): build the three
document batches, insert them, bump the counters, upsert progress, and call
the progress callback.  Returns the new state, the callback payload, and the
trace of completed persistence operations.  `s.fetchQueue` has already had
the processed height shifted off, so its length is the `activeFetches`
reported at line 319. -/
def processBlock (chainId : Nat) (chainName : String) (endBlock : Nat)
    (blockNum : Nat) (raw : RawBlock) (s : RunAcc) :
    RunAcc × ProgressPayload × List Op :=
  let blockDoc := mkBlockDoc chainId blockNum raw
  let extrinsicDocs :=
    mapWithIndex (mkExtrinsicDoc chainId blockNum raw.hash raw.timestampMs raw.events)
      0 raw.extrinsics
  let eventDocs := mapWithIndex (mkEventDoc chainId blockNum raw.hash raw.timestampMs) 0 raw.events
  let b := s.blocksIndexed + 1
  let x := s.extrinsicsIndexed + extrinsicDocs.length
  let e := s.eventsIndexed + eventDocs.length
  let prog : ScanProgressDocument :=
    { chainId := chainId
      chainName := chainName
      lastIndexedBlock := (blockNum : Int)
      blocksIndexed := b
      extrinsicsIndexed := x
      eventsIndexed := e
      isComplete := blockNum == endBlock
      targetEndBlock := some endBlock }
  let s' : RunAcc :=
    { s with
      blocksIndexed := b
      extrinsicsIndexed := x
      eventsIndexed := e
      store :=
        { blocks := s.store.blocks ++ [blockDoc]
          extrinsics := s.store.extrinsics ++ extrinsicDocs
          events := s.store.events ++ eventDocs
          progressLog := s.store.progressLog ++ [prog] } }
  let payload : ProgressPayload :=
    { lastIndexedBlock := blockNum
      blocksIndexed := b
      extrinsicsIndexed := x
      eventsIndexed := e
      activeFetches := s.fetchQueue.length }
  (s', payload,
    [Op.persistBlock blockNum, Op.persistExtrinsics blockNum, Op.persistEvents blockNum,
      Op.updateProgress (blockNum : Int)])

/-- The `catch` branch of the per-block `try` (indexer.ts lines 322-337):
pin the progress record at `blockNum - 1` with the counters as they stand
(errors in the normalize/persist section occur before the counter
increments) and `isComplete: false`, then re-throw. -/
def pinProgress (chainId : Nat) (chainName : String) (endBlock : Nat)
    (blockNum : Nat) (s : RunAcc) : RunAcc × Op :=
  let prog : ScanProgressDocument :=
    { chainId := chainId
      chainName := chainName
      lastIndexedBlock := (blockNum : Int) - 1
      blocksIndexed := s.blocksIndexed
      extrinsicsIndexed := s.extrinsicsIndexed
      eventsIndexed := s.eventsIndexed
      isComplete := false
      targetEndBlock := some endBlock }
  ({ s with store := { s.store with progressLog := s.store.progressLog ++ [prog] } },
    Op.updateProgress ((blockNum : Int) - 1))

/-- The outer loop of `index` (indexer.ts lines 157-339), one fuel unit per
iteration of `while (currentBlock <= endBlock)`.  Faithfully, the loop
guard ignores a non-empty `fetchQueue`: once the cursor passes `endBlock`
the loop exits even though up to `concurrency - 1` fetched heights are
still queued.  `fetch h` is the settled value of the queued promise for
height `h`; awaiting `fetchQueue.shift()` yields exactly that height's
result, so completion order of the concurrent fetches cannot reorder
processing.  `pfail h` says whether the normalize/persist section throws
for height `h`. -/
def runLoop (concurrency : Int) (endBlock : Nat) (fetch : Nat → FetchOutcome)
    (pfail : Nat → Bool) (chainId : Nat) (chainName : String) :
    Nat → RunAcc → RunResult
  | 0, s => { acc := s, callbacks := [], trace := [], outcome := RunOutcome.outOfFuel }
  | fuel + 1, s =>
    if endBlock < s.currentBlock then
      { acc := s, callbacks := [], trace := [], outcome := RunOutcome.completed }
    else
      let s1 := fillQueue concurrency endBlock (endBlock + 1 - s.currentBlock) s
      match s1.fetchQueue with
      | [] => runLoop concurrency endBlock fetch pfail chainId chainName fuel s1
      | h :: rest =>
        let s2 := { s1 with fetchQueue := rest }
        match fetch h with
        | FetchOutcome.pruned =>
          runLoop concurrency endBlock fetch pfail chainId chainName fuel s2
        | FetchOutcome.fatalError =>
          { acc := s2, callbacks := [], trace := [], outcome := RunOutcome.fetchFailed h }
        | FetchOutcome.ok raw =>
          if pfail h then
            let p := pinProgress chainId chainName endBlock h s2
            { acc := p.1, callbacks := [], trace := [p.2], outcome := RunOutcome.failed h }
          else
            let q := processBlock chainId chainName endBlock h raw s2
            let r := runLoop concurrency endBlock fetch pfail chainId chainName fuel q.1
            { acc := r.acc
              callbacks := q.2.1 :: r.callbacks
              trace := q.2.2 ++ r.trace
              outcome := r.outcome }

/-- The loop's entry state (indexer.ts lines 149-155): cursor at the resolved
start height, empty queue, counters seeded from the prior progress record
(`progress?.blocksIndexed || 0` etc.), and — for the purposes of a single
run — an empty view of the collections. -/
def mkInitAcc (startBlock b0 x0 e0 : Nat) : RunAcc :=
  { currentBlock := startBlock
    fetchQueue := []
    blocksIndexed := b0
    extrinsicsIndexed := x0
    eventsIndexed := e0
    store := { blocks := [], extrinsics := [], events := [], progressLog := [] } }

/-! ## Range resolution (indexer.ts lines 128-139) -/

/-- `const endBlock = userEndBlock ?? latestBlock`. -/
def resolveEndBlock (userEndBlock : Option Nat) (latestBlock : Nat) : Nat :=
  userEndBlock.getD latestBlock

/-- The start-height resolution (indexer.ts lines 131-139): an explicit
override wins; otherwise resume at `progress.lastIndexedBlock + 1` but only
when `progress.lastIndexedBlock < endBlock`; in every other case start at 0. -/
def resolveStartBlock (userStartBlock : Option Int)
    (progress : Option ScanProgressDocument) (endBlock : Nat) : Int :=
  match userStartBlock with
  | some s => s
  | none =>
    match progress with
    | some p =>
      if p.lastIndexedBlock < (endBlock : Int) then p.lastIndexedBlock + 1 else 0
    | none => 0

/-! ## Gap detection: `findMissingBlocks` (connection.ts, src/config.ts lines 233-277) -/

/-- The body of the scan loop (lines 253-265) as a fold: carry the
next-expected height and the ranges accumulated so far. -/
def missingStep (st : Nat × List (Int × Int)) (blockNum : Nat) : Nat × List (Int × Int) :=
  let ranges :=
    if st.1 < blockNum then st.2 ++ [((st.1 : Int), (blockNum : Int) - 1)] else st.2
  (blockNum + 1, ranges)

/-- `findMissingBlocks`, with the database reads supplied as arguments:
`progress` is the chain's progress record, `indexedBlocks` the persisted
block heights sorted ascending (the `.find().sort({number: 1})` result). -/
def findMissingBlocks (progress : Option ScanProgressDocument)
    (indexedBlocks : List Nat) : List (Int × Int) :=
  match progress with
  | none => []
  | some p =>
    if p.lastIndexedBlock = 0 then []
    else if indexedBlocks.isEmpty then [(0, p.lastIndexedBlock)]
    else
      let scanned := indexedBlocks.foldl missingStep (0, [])
      let lastIndexed := indexedBlocks.getLast!
      if (lastIndexed : Int) < p.lastIndexedBlock then
        scanned.2 ++ [((lastIndexed : Int) + 1, p.lastIndexedBlock)]
      else scanned.2

/-- The gap ranges as the spec words them: scanning the persisted heights in
ascending order, report `[expected, found - 1]` at each jump past the
next-expected height.  This is the claimed characterization, written
independently of the fold above, to be compared against it. -/
def gapRangesSpec : Nat → List Nat → List (Int × Int)
  | _, [] => []
  | expected, b :: bs =>
    (if expected < b then [((expected : Int), (b : Int) - 1)] else []) ++
      gapRangesSpec (b + 1) bs

/-- The spec's description of the non-degenerate case of the detector: the
jump ranges plus a trailing range up to `lastIndexedBlock` when the highest
persisted height is below it. -/
def findMissingBlocksSpec (indexedBlocks : List Nat) (lastIndexedBlock : Int) :
    List (Int × Int) :=
  gapRangesSpec 0 indexedBlocks ++
    (if (indexedBlocks.getLast! : Int) < lastIndexedBlock then
      [((indexedBlocks.getLast! : Int) + 1, lastIndexedBlock)]
    else [])

/-! ## Observations of a run used by the statements below -/

/-- The heights whose block insert appears in a trace, in completion order. -/
def persistHeights (t : List Op) : List Nat :=
  t.filterMap fun op =>
    match op with
    | Op.persistBlock h => some h
    | _ => none

/-- Number of extrinsics a successful fetch of height `h` delivers. -/
def numExts (fetch : Nat → FetchOutcome) (h : Nat) : Nat :=
  match fetch h with
  | FetchOutcome.ok raw => raw.extrinsics.length
  | _ => 0

/-- Number of events a successful fetch of height `h` delivers. -/
def numEvs (fetch : Nat → FetchOutcome) (h : Nat) : Nat :=
  match fetch h with
  | FetchOutcome.ok raw => raw.events.length
  | _ => 0

/-- Total extrinsics over a list of heights. -/
def extSum (fetch : Nat → FetchOutcome) (hs : List Nat) : Nat :=
  (hs.map (numExts fetch)).sum

/-- Total events over a list of heights. -/
def evSum (fetch : Nat → FetchOutcome) (hs : List Nat) : Nat :=
  (hs.map (numEvs fetch)).sum

/-- The expected sequence of (height, cumulative counters) carried by the
progress callbacks, given the heights persisted in order and the counter
seeds. -/
def cbSpec (fetch : Nat → FetchOutcome) : Nat → Nat → Nat → List Nat →
    List (Nat × Nat × Nat × Nat)
  | _, _, _, [] => []
  | b, x, e, h :: hs =>
    (h, b + 1, x + numExts fetch h, e + numEvs fetch h) ::
      cbSpec fetch (b + 1) (x + numExts fetch h) (e + numEvs fetch h) hs

/-- Checks that a trace consists of whole per-height groups — block insert,
extrinsic bulk-insert, event bulk-insert, then the progress update for that
same height — with strictly increasing heights (each above `last`), possibly
closed by one final lone progress write (the pinned record of a failing
height).  This is the ordering property: no operation of a later height
appears before the group of an earlier height completes. -/
def wfTrace : Option Nat → List Op → Bool
  | _, [] => true
  | last,
    Op.persistBlock h :: Op.persistExtrinsics h2 :: Op.persistEvents h3 ::
      Op.updateProgress p :: rest =>
    (h2 == h) && (h3 == h) && (p == (h : Int)) &&
      (match last with
        | none => true
        | some l => decide (l < h)) &&
      wfTrace (some h) rest
  | _, Op.updateProgress _ :: rest => rest.isEmpty
  | _, _ => false

/-- The fetch queue always holds the consecutive heights just below the issue
cursor: `q = [cb - q.length, …, cb - 1]`. -/
def ConsecTo : List Nat → Nat → Prop
  | [], _ => True
  | a :: t, cb => a + t.length + 1 = cb ∧ ConsecTo t cb

/-- The argument mapping as the amended claim words it: the longest prefix of
the declared arguments whose values all decode, paired name-to-value. -/
def decodeArgsSpec (names : List String) (vals : List (Option String)) :
    List (String × String) :=
  ((names.zip vals).takeWhile fun p => p.2.isSome).filterMap fun p =>
    p.2.map fun v => (p.1, v)

/-! ## Concrete data for witnesses and counterexamples -/

/-- A signed transfer whose two arguments both decode. -/
def okExtrinsic : RawExtrinsic :=
  { hash := "0xe1", pallet := "balances", method := "transfer", metaOk := true,
    argNames := ["dest", "value"], argVals := [some "addr", some "10"],
    signer := some "0xsigner", isSigned := true, nonce := some 3, tip := some "0" }

/-- An extrinsic whose first argument decodes and whose second throws. -/
def partialArgsExtrinsic : RawExtrinsic :=
  { hash := "0xe2", pallet := "sudo", method := "sudo", metaOk := true,
    argNames := ["call", "weight"], argVals := [some "callData", none],
    signer := some "0xroot", isSigned := true, nonce := some 0, tip := none }

/-- The apply-phase success marker for the extrinsic at position 0. -/
def successEvent : RawEvent :=
  { phase := Phase.applyExtrinsic 0, pallet := "system", method := "ExtrinsicSuccess",
    isSuccessEvt := true, isFailedEvt := false, errData := none,
    dataH := ["dispatchInfo"], topics := [] }

/-- The apply-phase failure marker for the extrinsic at position 0. -/
def failedEvent : RawEvent :=
  { phase := Phase.applyExtrinsic 0, pallet := "system", method := "ExtrinsicFailed",
    isSuccessEvt := false, isFailedEvt := true, errData := some "BadOrigin",
    dataH := ["BadOrigin"], topics := [] }

/-- A block with one successful extrinsic and its success event. -/
def okBlock : RawBlock :=
  { hash := "0xb", parentHash := "0xp", stateRoot := "0xs", extrinsicsRoot := "0xx",
    timestampMs := 1000, extrinsics := [okExtrinsic], events := [successEvent] }

/-- A progress record with `lastIndexedBlock = 5`. -/
def progressAt5 : ScanProgressDocument :=
  { chainId := 1, chainName := "devnet", lastIndexedBlock := 5, blocksIndexed := 6,
    extrinsicsIndexed := 10, eventsIndexed := 20, isComplete := false,
    targetEndBlock := none }

/-- A progress record with `lastIndexedBlock = 9`. -/
def progressAt9 : ScanProgressDocument :=
  { chainId := 1, chainName := "devnet", lastIndexedBlock := 9, blocksIndexed := 6,
    extrinsicsIndexed := 0, eventsIndexed := 0, isComplete := false,
    targetEndBlock := none }

/-! ## Basic lemmas -/

/-- `mapWithIndex` preserves length. -/
theorem mapWithIndex_length {α β : Type} (f : Nat → α → β) :
    ∀ (i : Nat) (as : List α), (mapWithIndex f i as).length = as.length := by
  intro i as
  induction as generalizing i with
  | nil => rfl
  | cons a as ih => simp [mapWithIndex, ih]

/-- The decode loop keeps exactly the longest all-decoding prefix. -/
theorem decodeArgs_eq_spec :
    ∀ (names : List String) (vals : List (Option String)),
      decodeArgs names vals = decodeArgsSpec names vals := by
  intro names
  induction names with
  | nil => intro vals; rfl
  | cons n ns ih =>
    intro vals
    cases vals with
    | nil => rfl
    | cons v vs =>
      cases v with
      | some s =>
        simp [decodeArgs, decodeArgsSpec, List.zip_cons_cons, List.takeWhile_cons] at ih ⊢
        exact ih vs
      | none => simp [decodeArgs, decodeArgsSpec, List.zip_cons_cons, List.takeWhile_cons]

/-- Pushing the cursor height keeps the queue consecutive below the new cursor. -/
theorem consecTo_push : ∀ (q : List Nat) (cb : Nat),
    ConsecTo q cb → ConsecTo (q ++ [cb]) (cb + 1) := by
  intro q
  induction q with
  | nil => intro cb _; simp [ConsecTo]
  | cons a t ih =>
    intro cb h
    have h2 : ConsecTo (a :: (t ++ [cb])) (cb + 1) := by
      refine ⟨?_, ih cb h.2⟩
      have h1 := h.1
      have h3 : (t ++ [cb]).length = t.length + 1 := by simp
      omega
    exact h2

/-- The head of a consecutive queue is below every later element. -/
theorem consecTo_head_lt : ∀ (t : List Nat) (a cb : Nat),
    ConsecTo (a :: t) cb → ∀ x ∈ t, a < x := by
  intro t
  induction t with
  | nil => intro a cb _ x hx; simp at hx
  | cons b t2 ih =>
    intro a cb h x hx
    have h1 : a + (b :: t2).length + 1 = cb := h.1
    have h2 : b + t2.length + 1 = cb := h.2.1
    have hl : (b :: t2).length = t2.length + 1 := rfl
    rcases List.mem_cons.mp hx with rfl | hx2
    · omega
    · have hb := ih b cb h.2 x hx2
      have hab : a < b := by omega
      omega

/-- Every element of a consecutive queue lies below the cursor. -/
theorem consecTo_mem_lt : ∀ (q : List Nat) (cb : Nat),
    ConsecTo q cb → ∀ x ∈ q, x < cb := by
  intro q
  induction q with
  | nil => intro cb _ x hx; simp at hx
  | cons a t ih =>
    intro cb h x hx
    rcases List.mem_cons.mp hx with rfl | hx2
    · have h1 := h.1; omega
    · exact ih cb h.2 x hx2

/-- `fillQueue` touches only the cursor and the queue. -/
theorem fillQueue_frame (c : Int) (endB : Nat) : ∀ (k : Nat) (s : RunAcc),
    (fillQueue c endB k s).blocksIndexed = s.blocksIndexed ∧
    (fillQueue c endB k s).extrinsicsIndexed = s.extrinsicsIndexed ∧
    (fillQueue c endB k s).eventsIndexed = s.eventsIndexed ∧
    (fillQueue c endB k s).store = s.store := by
  intro k
  induction k with
  | zero => intro s; exact ⟨rfl, rfl, rfl, rfl⟩
  | succ k ih =>
    intro s
    by_cases hc : (s.fetchQueue.length : Int) < c ∧ s.currentBlock ≤ endB
    · simp only [fillQueue, if_pos hc]
      exact ih _
    · simp [fillQueue, if_neg hc]

/-- `fillQueue` preserves queue-consecutiveness. -/
theorem fillQueue_consec (c : Int) (endB : Nat) : ∀ (k : Nat) (s : RunAcc),
    ConsecTo s.fetchQueue s.currentBlock →
    ConsecTo (fillQueue c endB k s).fetchQueue (fillQueue c endB k s).currentBlock := by
  intro k
  induction k with
  | zero => intro s hs; exact hs
  | succ k ih =>
    intro s hs
    by_cases hc : (s.fetchQueue.length : Int) < c ∧ s.currentBlock ≤ endB
    · simp only [fillQueue, if_pos hc]
      exact ih _ (consecTo_push _ _ hs)
    · simp only [fillQueue, if_neg hc]
      exact hs

/-- `fillQueue` preserves the lower bound `l + |queue| < cursor`. -/
theorem fillQueue_bound (c : Int) (endB : Nat) : ∀ (k : Nat) (s : RunAcc) (l : Nat),
    l + s.fetchQueue.length < s.currentBlock →
    l + (fillQueue c endB k s).fetchQueue.length < (fillQueue c endB k s).currentBlock := by
  intro k
  induction k with
  | zero => intro s l hs; exact hs
  | succ k ih =>
    intro s l hs
    by_cases hc : (s.fetchQueue.length : Int) < c ∧ s.currentBlock ≤ endB
    · simp only [fillQueue, if_pos hc]
      refine ih _ l ?_
      have : (s.fetchQueue ++ [s.currentBlock]).length = s.fetchQueue.length + 1 := by simp
      simp only [this]
      omega
    · simp only [fillQueue, if_neg hc]
      exact hs

/-- `fillQueue` never moves the cursor backwards. -/
theorem fillQueue_cb_le (c : Int) (endB : Nat) : ∀ (k : Nat) (s : RunAcc),
    s.currentBlock ≤ (fillQueue c endB k s).currentBlock := by
  intro k
  induction k with
  | zero => intro s; exact Nat.le_refl _
  | succ k ih =>
    intro s
    by_cases hc : (s.fetchQueue.length : Int) < c ∧ s.currentBlock ≤ endB
    · simp only [fillQueue, if_pos hc]
      have h2 := ih { s with
        fetchQueue := s.fetchQueue ++ [s.currentBlock]
        currentBlock := s.currentBlock + 1 }
      simp at h2
      omega
    · simp only [fillQueue, if_neg hc]
      exact Nat.le_refl _

/-- A height in the filled queue was already queued or is at least the old
cursor. -/
theorem fillQueue_mem (c : Int) (endB : Nat) : ∀ (k : Nat) (s : RunAcc) (h : Nat),
    h ∈ (fillQueue c endB k s).fetchQueue →
    h ∈ s.fetchQueue ∨ s.currentBlock ≤ h := by
  intro k
  induction k with
  | zero => intro s h hh; exact Or.inl hh
  | succ k ih =>
    intro s h hh
    by_cases hc : (s.fetchQueue.length : Int) < c ∧ s.currentBlock ≤ endB
    · simp only [fillQueue, if_pos hc] at hh
      rcases ih _ h hh with hq | hcb
      · rcases List.mem_append.mp hq with hq2 | hq3
        · exact Or.inl hq2
        · simp at hq3
          omega
      · simp only at hcb
        omega
    · simp only [fillQueue, if_neg hc] at hh
      exact Or.inl hh
/-! ## Step equations for `runLoop` -/

/-- `fetchQueue.shift()`: the state after removing the head of the queue,
written as an explicit constructor so that the step equations below stay
syntactically stable. -/
def popQueue (s : RunAcc) (rest : List Nat) : RunAcc :=
  { currentBlock := s.currentBlock
    fetchQueue := rest
    blocksIndexed := s.blocksIndexed
    extrinsicsIndexed := s.extrinsicsIndexed
    eventsIndexed := s.eventsIndexed
    store := s.store }

@[simp] theorem popQueue_currentBlock (s : RunAcc) (rest : List Nat) :
    (popQueue s rest).currentBlock = s.currentBlock := rfl

@[simp] theorem popQueue_fetchQueue (s : RunAcc) (rest : List Nat) :
    (popQueue s rest).fetchQueue = rest := rfl

@[simp] theorem popQueue_blocksIndexed (s : RunAcc) (rest : List Nat) :
    (popQueue s rest).blocksIndexed = s.blocksIndexed := rfl

@[simp] theorem popQueue_extrinsicsIndexed (s : RunAcc) (rest : List Nat) :
    (popQueue s rest).extrinsicsIndexed = s.extrinsicsIndexed := rfl

@[simp] theorem popQueue_eventsIndexed (s : RunAcc) (rest : List Nat) :
    (popQueue s rest).eventsIndexed = s.eventsIndexed := rfl

@[simp] theorem popQueue_store (s : RunAcc) (rest : List Nat) :
    (popQueue s rest).store = s.store := rfl

/-- Loop exit: the cursor has passed `endBlock`.  Faithful to the source, a
still-non-empty fetch queue is abandoned at this point. -/
theorem runLoop_done (c : Int) (endB : Nat) (fetch : Nat → FetchOutcome)
    (pfail : Nat → Bool) (cid : Nat) (cname : String) (fuel : Nat) (s : RunAcc)
    (hdone : endB < s.currentBlock) :
    runLoop c endB fetch pfail cid cname (fuel + 1) s =
      { acc := s, callbacks := [], trace := [], outcome := RunOutcome.completed } := by
  simp [runLoop, hdone]

/-- An iteration that admits nothing (possible only when `concurrency ≤ 0`)
just spins. -/
theorem runLoop_emptyQueue (c : Int) (endB : Nat) (fetch : Nat → FetchOutcome)
    (pfail : Nat → Bool) (cid : Nat) (cname : String) (fuel : Nat) (s : RunAcc)
    (hle : s.currentBlock ≤ endB)
    (hq : (fillQueue c endB (endB + 1 - s.currentBlock) s).fetchQueue = []) :
    runLoop c endB fetch pfail cid cname (fuel + 1) s =
      runLoop c endB fetch pfail cid cname fuel
        (fillQueue c endB (endB + 1 - s.currentBlock) s) := by
  have hn : ¬ endB < s.currentBlock := by omega
  simp only [runLoop, if_neg hn, hq]

/-- A pruned head height is skipped: no writes, no callback, next iteration. -/
theorem runLoop_pruned (c : Int) (endB : Nat) (fetch : Nat → FetchOutcome)
    (pfail : Nat → Bool) (cid : Nat) (cname : String) (fuel : Nat) (s : RunAcc)
    (h : Nat) (rest : List Nat) (hle : s.currentBlock ≤ endB)
    (hq : (fillQueue c endB (endB + 1 - s.currentBlock) s).fetchQueue = h :: rest)
    (hf : fetch h = FetchOutcome.pruned) :
    runLoop c endB fetch pfail cid cname (fuel + 1) s =
      runLoop c endB fetch pfail cid cname fuel
        (popQueue (fillQueue c endB (endB + 1 - s.currentBlock) s) rest) := by
  have hn : ¬ endB < s.currentBlock := by omega
  simp only [runLoop, if_neg hn, hq, hf, popQueue]

/-- A non-pruned, non-network fetch error escapes `index` directly (the
`await` of the shifted promise sits outside the per-block `try`). -/
theorem runLoop_fatal (c : Int) (endB : Nat) (fetch : Nat → FetchOutcome)
    (pfail : Nat → Bool) (cid : Nat) (cname : String) (fuel : Nat) (s : RunAcc)
    (h : Nat) (rest : List Nat) (hle : s.currentBlock ≤ endB)
    (hq : (fillQueue c endB (endB + 1 - s.currentBlock) s).fetchQueue = h :: rest)
    (hf : fetch h = FetchOutcome.fatalError) :
    runLoop c endB fetch pfail cid cname (fuel + 1) s =
      { acc := popQueue (fillQueue c endB (endB + 1 - s.currentBlock) s) rest
        callbacks := []
        trace := []
        outcome := RunOutcome.fetchFailed h } := by
  have hn : ¬ endB < s.currentBlock := by omega
  simp only [runLoop, if_neg hn, hq, hf, popQueue]

/-- A throw in the normalize/persist section: pin progress at `h - 1` and
re-throw. -/
theorem runLoop_pfail (c : Int) (endB : Nat) (fetch : Nat → FetchOutcome)
    (pfail : Nat → Bool) (cid : Nat) (cname : String) (fuel : Nat) (s : RunAcc)
    (h : Nat) (rest : List Nat) (raw : RawBlock) (hle : s.currentBlock ≤ endB)
    (hq : (fillQueue c endB (endB + 1 - s.currentBlock) s).fetchQueue = h :: rest)
    (hf : fetch h = FetchOutcome.ok raw) (hp : pfail h = true) :
    runLoop c endB fetch pfail cid cname (fuel + 1) s =
      { acc := (pinProgress cid cname endB h
          (popQueue (fillQueue c endB (endB + 1 - s.currentBlock) s) rest)).1
        callbacks := []
        trace := [(pinProgress cid cname endB h
          (popQueue (fillQueue c endB (endB + 1 - s.currentBlock) s) rest)).2]
        outcome := RunOutcome.failed h } := by
  have hn : ¬ endB < s.currentBlock := by omega
  simp only [runLoop, if_neg hn, hq, hf, hp, if_pos, popQueue]

/-- A successful height: persist, update progress, emit the callback, and
continue. -/
theorem runLoop_ok (c : Int) (endB : Nat) (fetch : Nat → FetchOutcome)
    (pfail : Nat → Bool) (cid : Nat) (cname : String) (fuel : Nat) (s : RunAcc)
    (h : Nat) (rest : List Nat) (raw : RawBlock) (hle : s.currentBlock ≤ endB)
    (hq : (fillQueue c endB (endB + 1 - s.currentBlock) s).fetchQueue = h :: rest)
    (hf : fetch h = FetchOutcome.ok raw) (hp : pfail h = false) :
    runLoop c endB fetch pfail cid cname (fuel + 1) s =
      { acc := (runLoop c endB fetch pfail cid cname fuel
          (processBlock cid cname endB h raw
            (popQueue (fillQueue c endB (endB + 1 - s.currentBlock) s) rest)).1).acc
        callbacks := (processBlock cid cname endB h raw
            (popQueue (fillQueue c endB (endB + 1 - s.currentBlock) s) rest)).2.1 ::
          (runLoop c endB fetch pfail cid cname fuel
            (processBlock cid cname endB h raw
              (popQueue (fillQueue c endB (endB + 1 - s.currentBlock) s) rest)).1).callbacks
        trace := (processBlock cid cname endB h raw
            (popQueue (fillQueue c endB (endB + 1 - s.currentBlock) s) rest)).2.2 ++
          (runLoop c endB fetch pfail cid cname fuel
            (processBlock cid cname endB h raw
              (popQueue (fillQueue c endB (endB + 1 - s.currentBlock) s) rest)).1).trace
        outcome := (runLoop c endB fetch pfail cid cname fuel
          (processBlock cid cname endB h raw
            (popQueue (fillQueue c endB (endB + 1 - s.currentBlock) s) rest)).1).outcome } := by
  have hn : ¬ endB < s.currentBlock := by omega
  simp only [runLoop, if_neg hn, hq, hf, hp, if_neg, Bool.false_eq_true, not_false_iff,
    popQueue]

/-! ## Projection lemmas for the per-block bodies -/

theorem processBlock_fetchQueue (cid : Nat) (cname : String) (endB h : Nat)
    (raw : RawBlock) (s : RunAcc) :
    (processBlock cid cname endB h raw s).1.fetchQueue = s.fetchQueue := by
  simp [processBlock]

theorem processBlock_currentBlock (cid : Nat) (cname : String) (endB h : Nat)
    (raw : RawBlock) (s : RunAcc) :
    (processBlock cid cname endB h raw s).1.currentBlock = s.currentBlock := by
  simp [processBlock]

theorem processBlock_blocksIndexed (cid : Nat) (cname : String) (endB h : Nat)
    (raw : RawBlock) (s : RunAcc) :
    (processBlock cid cname endB h raw s).1.blocksIndexed = s.blocksIndexed + 1 := by
  simp [processBlock]

theorem processBlock_extrinsicsIndexed (cid : Nat) (cname : String) (endB h : Nat)
    (raw : RawBlock) (s : RunAcc) :
    (processBlock cid cname endB h raw s).1.extrinsicsIndexed =
      s.extrinsicsIndexed + raw.extrinsics.length := by
  simp [processBlock, mapWithIndex_length]

theorem processBlock_eventsIndexed (cid : Nat) (cname : String) (endB h : Nat)
    (raw : RawBlock) (s : RunAcc) :
    (processBlock cid cname endB h raw s).1.eventsIndexed =
      s.eventsIndexed + raw.events.length := by
  simp [processBlock, mapWithIndex_length]

theorem processBlock_trace (cid : Nat) (cname : String) (endB h : Nat)
    (raw : RawBlock) (s : RunAcc) :
    (processBlock cid cname endB h raw s).2.2 =
      [Op.persistBlock h, Op.persistExtrinsics h, Op.persistEvents h,
        Op.updateProgress (h : Int)] := by
  simp [processBlock]

theorem processBlock_payload (cid : Nat) (cname : String) (endB h : Nat)
    (raw : RawBlock) (s : RunAcc) :
    (processBlock cid cname endB h raw s).2.1 =
      { lastIndexedBlock := h
        blocksIndexed := s.blocksIndexed + 1
        extrinsicsIndexed := s.extrinsicsIndexed + raw.extrinsics.length
        eventsIndexed := s.eventsIndexed + raw.events.length
        activeFetches := s.fetchQueue.length } := by
  simp [processBlock, mapWithIndex_length]

theorem processBlock_progressLog (cid : Nat) (cname : String) (endB h : Nat)
    (raw : RawBlock) (s : RunAcc) :
    (processBlock cid cname endB h raw s).1.store.progressLog =
      s.store.progressLog ++
        [{ chainId := cid
           chainName := cname
           lastIndexedBlock := (h : Int)
           blocksIndexed := s.blocksIndexed + 1
           extrinsicsIndexed := s.extrinsicsIndexed + raw.extrinsics.length
           eventsIndexed := s.eventsIndexed + raw.events.length
           isComplete := h == endB
           targetEndBlock := some endB }] := by
  simp [processBlock, mapWithIndex_length]

theorem pinProgress_counters (cid : Nat) (cname : String) (endB h : Nat) (s : RunAcc) :
    (pinProgress cid cname endB h s).1.blocksIndexed = s.blocksIndexed ∧
    (pinProgress cid cname endB h s).1.extrinsicsIndexed = s.extrinsicsIndexed ∧
    (pinProgress cid cname endB h s).1.eventsIndexed = s.eventsIndexed := by
  simp [pinProgress]

theorem pinProgress_progressLog (cid : Nat) (cname : String) (endB h : Nat) (s : RunAcc) :
    (pinProgress cid cname endB h s).1.store.progressLog =
      s.store.progressLog ++
        [{ chainId := cid
           chainName := cname
           lastIndexedBlock := (h : Int) - 1
           blocksIndexed := s.blocksIndexed
           extrinsicsIndexed := s.extrinsicsIndexed
           eventsIndexed := s.eventsIndexed
           isComplete := false
           targetEndBlock := some endB }] := by
  simp [pinProgress]

theorem pinProgress_op (cid : Nat) (cname : String) (endB h : Nat) (s : RunAcc) :
    (pinProgress cid cname endB h s).2 = Op.updateProgress ((h : Int) - 1) := rfl

/-! ## Master invariants of the loop -/

/-- Ordering invariant: from any state whose queue is the consecutive run
just below the cursor, and any lower bound `last` strictly below every
queued or future height, the produced trace is a sequence of whole
per-height groups with strictly increasing heights, possibly closed by one
pinned progress write. -/
theorem runLoop_wfTrace (c : Int) (endB : Nat) (fetch : Nat → FetchOutcome)
    (pfail : Nat → Bool) (cid : Nat) (cname : String) :
    ∀ (fuel : Nat) (s : RunAcc) (last : Option Nat),
      ConsecTo s.fetchQueue s.currentBlock →
      (∀ l, last = some l → l + s.fetchQueue.length < s.currentBlock) →
      wfTrace last (runLoop c endB fetch pfail cid cname fuel s).trace = true := by
  intro fuel
  induction fuel with
  | zero => intro s last _ _; rfl
  | succ fuel ih =>
    intro s last hcons hbound
    by_cases hdone : endB < s.currentBlock
    · rw [runLoop_done c endB fetch pfail cid cname fuel s hdone]
      cases last <;> rfl
    · have hle : s.currentBlock ≤ endB := by omega
      have hcons1 := fillQueue_consec c endB (endB + 1 - s.currentBlock) s hcons
      have hbound1 : ∀ l, last = some l →
          l + (fillQueue c endB (endB + 1 - s.currentBlock) s).fetchQueue.length <
            (fillQueue c endB (endB + 1 - s.currentBlock) s).currentBlock := by
        intro l hl
        exact fillQueue_bound c endB _ s l (hbound l hl)
      cases hq : (fillQueue c endB (endB + 1 - s.currentBlock) s).fetchQueue with
      | nil =>
        rw [runLoop_emptyQueue c endB fetch pfail cid cname fuel s hle hq]
        exact ih _ last hcons1 hbound1
      | cons h rest =>
        have hcons2 : ConsecTo (h :: rest)
            (fillQueue c endB (endB + 1 - s.currentBlock) s).currentBlock := hq ▸ hcons1
        cases hf : fetch h with
        | pruned =>
          rw [runLoop_pruned c endB fetch pfail cid cname fuel s h rest hle hq hf]
          refine ih _ last ?_ ?_
          · simp only [popQueue_fetchQueue, popQueue_currentBlock]
            exact hcons2.2
          · intro l hl
            have hb1 := hbound1 l hl
            rw [hq] at hb1
            simp only [List.length_cons] at hb1
            simp only [popQueue_fetchQueue, popQueue_currentBlock]
            omega
        | fatalError =>
          rw [runLoop_fatal c endB fetch pfail cid cname fuel s h rest hle hq hf]
          cases last <;> rfl
        | ok raw =>
          cases hp : pfail h with
          | true =>
            rw [runLoop_pfail c endB fetch pfail cid cname fuel s h rest raw hle hq hf hp]
            simp [pinProgress_op, wfTrace]
          | false =>
            rw [runLoop_ok c endB fetch pfail cid cname fuel s h rest raw hle hq hf hp]
            simp only [processBlock_trace, List.cons_append, List.nil_append]
            have hrest : wfTrace (some h)
                (runLoop c endB fetch pfail cid cname fuel
                  (processBlock cid cname endB h raw
                    (popQueue (fillQueue c endB (endB + 1 - s.currentBlock) s) rest)).1).trace
                  = true := by
              refine ih _ (some h) ?_ ?_
              · rw [processBlock_fetchQueue, processBlock_currentBlock]
                simp only [popQueue_fetchQueue, popQueue_currentBlock]
                exact hcons2.2
              · intro l hl
                injection hl with hl2
                rw [processBlock_fetchQueue, processBlock_currentBlock]
                simp only [popQueue_fetchQueue, popQueue_currentBlock]
                have hhead := hcons2.1
                omega
            cases last with
            | none => simp [wfTrace, hrest]
            | some l =>
              have hlh : l < h := by
                have hb1 := hbound1 l rfl
                rw [hq] at hb1
                simp only [List.length_cons] at hb1
                have hhead := hcons2.1
                omega
              simp [wfTrace, hrest, hlh]

theorem persistHeights_group (h : Nat) (p : Int) (t : List Op) :
    persistHeights (Op.persistBlock h :: Op.persistExtrinsics h :: Op.persistEvents h ::
      Op.updateProgress p :: t) = h :: persistHeights t := by
  simp [persistHeights]

theorem extSum_cons (fetch : Nat → FetchOutcome) (h : Nat) (hs : List Nat) :
    extSum fetch (h :: hs) = numExts fetch h + extSum fetch hs := by
  simp [extSum]

theorem evSum_cons (fetch : Nat → FetchOutcome) (h : Nat) (hs : List Nat) :
    evSum fetch (h :: hs) = numEvs fetch h + evSum fetch hs := by
  simp [evSum]

/-- Counter invariant: each cumulative counter ends at its seed plus exactly
the contribution of the heights whose persistence appears in the trace. -/
theorem runLoop_counts (c : Int) (endB : Nat) (fetch : Nat → FetchOutcome)
    (pfail : Nat → Bool) (cid : Nat) (cname : String) :
    ∀ (fuel : Nat) (s : RunAcc),
      (runLoop c endB fetch pfail cid cname fuel s).acc.blocksIndexed =
        s.blocksIndexed +
          (persistHeights (runLoop c endB fetch pfail cid cname fuel s).trace).length ∧
      (runLoop c endB fetch pfail cid cname fuel s).acc.extrinsicsIndexed =
        s.extrinsicsIndexed +
          extSum fetch (persistHeights (runLoop c endB fetch pfail cid cname fuel s).trace) ∧
      (runLoop c endB fetch pfail cid cname fuel s).acc.eventsIndexed =
        s.eventsIndexed +
          evSum fetch (persistHeights (runLoop c endB fetch pfail cid cname fuel s).trace) := by
  intro fuel
  induction fuel with
  | zero =>
    intro s
    refine ⟨rfl, rfl, rfl⟩
  | succ fuel ih =>
    intro s
    by_cases hdone : endB < s.currentBlock
    · rw [runLoop_done c endB fetch pfail cid cname fuel s hdone]
      exact ⟨rfl, rfl, rfl⟩
    · have hle : s.currentBlock ≤ endB := by omega
      have hframe := fillQueue_frame c endB (endB + 1 - s.currentBlock) s
      cases hq : (fillQueue c endB (endB + 1 - s.currentBlock) s).fetchQueue with
      | nil =>
        rw [runLoop_emptyQueue c endB fetch pfail cid cname fuel s hle hq]
        have hih := ih (fillQueue c endB (endB + 1 - s.currentBlock) s)
        omega
      | cons h rest =>
        cases hf : fetch h with
        | pruned =>
          rw [runLoop_pruned c endB fetch pfail cid cname fuel s h rest hle hq hf]
          have hih := ih (popQueue (fillQueue c endB (endB + 1 - s.currentBlock) s) rest)
          simp only [popQueue_blocksIndexed, popQueue_extrinsicsIndexed,
            popQueue_eventsIndexed] at hih
          omega
        | fatalError =>
          rw [runLoop_fatal c endB fetch pfail cid cname fuel s h rest hle hq hf]
          simp only [popQueue_blocksIndexed, popQueue_extrinsicsIndexed,
            popQueue_eventsIndexed, persistHeights, List.filterMap_nil, List.length_nil,
            extSum, evSum, List.map_nil, List.sum_nil]
          omega
        | ok raw =>
          cases hp : pfail h with
          | true =>
            rw [runLoop_pfail c endB fetch pfail cid cname fuel s h rest raw hle hq hf hp]
            have hpin := pinProgress_counters cid cname endB h
              (popQueue (fillQueue c endB (endB + 1 - s.currentBlock) s) rest)
            simp only [popQueue_blocksIndexed, popQueue_extrinsicsIndexed,
              popQueue_eventsIndexed] at hpin
            simp only [pinProgress_op]
            simp only [persistHeights, List.filterMap_cons, List.filterMap_nil,
              List.length_nil, extSum, evSum, List.map_nil, List.sum_nil]
            omega
          | false =>
            rw [runLoop_ok c endB fetch pfail cid cname fuel s h rest raw hle hq hf hp]
            simp only [processBlock_trace, List.cons_append, List.nil_append,
              persistHeights_group, extSum_cons, evSum_cons]
            have hih := ih (processBlock cid cname endB h raw
              (popQueue (fillQueue c endB (endB + 1 - s.currentBlock) s) rest)).1
            have hb := processBlock_blocksIndexed cid cname endB h raw
              (popQueue (fillQueue c endB (endB + 1 - s.currentBlock) s) rest)
            have hx := processBlock_extrinsicsIndexed cid cname endB h raw
              (popQueue (fillQueue c endB (endB + 1 - s.currentBlock) s) rest)
            have he := processBlock_eventsIndexed cid cname endB h raw
              (popQueue (fillQueue c endB (endB + 1 - s.currentBlock) s) rest)
            have hne : numExts fetch h = raw.extrinsics.length := by simp [numExts, hf]
            have hnv : numEvs fetch h = raw.events.length := by simp [numEvs, hf]
            simp only [popQueue_blocksIndexed, popQueue_extrinsicsIndexed,
              popQueue_eventsIndexed] at hb hx he
            simp only [List.length_cons]
            omega

/-- Callback invariant: the `onProgress` payloads are exactly one per
persisted height, in order, carrying the height and the running cumulative
counters. -/
theorem runLoop_callbacks (c : Int) (endB : Nat) (fetch : Nat → FetchOutcome)
    (pfail : Nat → Bool) (cid : Nat) (cname : String) :
    ∀ (fuel : Nat) (s : RunAcc),
      (runLoop c endB fetch pfail cid cname fuel s).callbacks.map
          (fun p => (p.lastIndexedBlock, p.blocksIndexed, p.extrinsicsIndexed,
            p.eventsIndexed)) =
        cbSpec fetch s.blocksIndexed s.extrinsicsIndexed s.eventsIndexed
          (persistHeights (runLoop c endB fetch pfail cid cname fuel s).trace) := by
  intro fuel
  induction fuel with
  | zero => intro s; rfl
  | succ fuel ih =>
    intro s
    by_cases hdone : endB < s.currentBlock
    · rw [runLoop_done c endB fetch pfail cid cname fuel s hdone]
      rfl
    · have hle : s.currentBlock ≤ endB := by omega
      have hframe := fillQueue_frame c endB (endB + 1 - s.currentBlock) s
      cases hq : (fillQueue c endB (endB + 1 - s.currentBlock) s).fetchQueue with
      | nil =>
        rw [runLoop_emptyQueue c endB fetch pfail cid cname fuel s hle hq]
        have hih := ih (fillQueue c endB (endB + 1 - s.currentBlock) s)
        rw [hframe.1, hframe.2.1, hframe.2.2.1] at hih
        exact hih
      | cons h rest =>
        cases hf : fetch h with
        | pruned =>
          rw [runLoop_pruned c endB fetch pfail cid cname fuel s h rest hle hq hf]
          have hih := ih (popQueue (fillQueue c endB (endB + 1 - s.currentBlock) s) rest)
          rw [popQueue_blocksIndexed, popQueue_extrinsicsIndexed, popQueue_eventsIndexed,
            hframe.1, hframe.2.1, hframe.2.2.1] at hih
          exact hih
        | fatalError =>
          rw [runLoop_fatal c endB fetch pfail cid cname fuel s h rest hle hq hf]
          rfl
        | ok raw =>
          cases hp : pfail h with
          | true =>
            rw [runLoop_pfail c endB fetch pfail cid cname fuel s h rest raw hle hq hf hp]
            simp [pinProgress_op, persistHeights, cbSpec]
          | false =>
            rw [runLoop_ok c endB fetch pfail cid cname fuel s h rest raw hle hq hf hp]
            have hne : numExts fetch h = raw.extrinsics.length := by simp [numExts, hf]
            have hnv : numEvs fetch h = raw.events.length := by simp [numEvs, hf]
            have htr : persistHeights
                ((processBlock cid cname endB h raw
                  (popQueue (fillQueue c endB (endB + 1 - s.currentBlock) s) rest)).2.2 ++
                  (runLoop c endB fetch pfail cid cname fuel
                    (processBlock cid cname endB h raw
                      (popQueue (fillQueue c endB (endB + 1 - s.currentBlock) s)
                        rest)).1).trace) =
                h :: persistHeights (runLoop c endB fetch pfail cid cname fuel
                  (processBlock cid cname endB h raw
                    (popQueue (fillQueue c endB (endB + 1 - s.currentBlock) s)
                      rest)).1).trace := by
              rw [processBlock_trace]
              simp [persistHeights]
            simp only [htr, cbSpec, List.map_cons]
            congr 1
            · rw [processBlock_payload]
              simp only [popQueue_blocksIndexed, popQueue_extrinsicsIndexed,
                popQueue_eventsIndexed, hframe.1, hframe.2.1, hframe.2.2.1, hne, hnv]
            · have hih := ih (processBlock cid cname endB h raw
                (popQueue (fillQueue c endB (endB + 1 - s.currentBlock) s) rest)).1
              rw [processBlock_blocksIndexed, processBlock_extrinsicsIndexed,
                processBlock_eventsIndexed, popQueue_blocksIndexed,
                popQueue_extrinsicsIndexed, popQueue_eventsIndexed,
                hframe.1, hframe.2.1, hframe.2.2.1] at hih
              rw [hih, hne, hnv]
              congr 1

/-- Failure-path shape: a run that ends in `failed h` wrote, as its very last
progress upsert and very last operation, the pinned record at `h - 1` with
the final (unincremented) counters and `isComplete = false`. -/
theorem runLoop_failed_pin (c : Int) (endB : Nat) (fetch : Nat → FetchOutcome)
    (pfail : Nat → Bool) (cid : Nat) (cname : String) :
    ∀ (fuel : Nat) (s : RunAcc) (h : Nat),
      (runLoop c endB fetch pfail cid cname fuel s).outcome = RunOutcome.failed h →
      (∃ t, (runLoop c endB fetch pfail cid cname fuel s).acc.store.progressLog =
        t ++ [{ chainId := cid
                chainName := cname
                lastIndexedBlock := (h : Int) - 1
                blocksIndexed :=
                  (runLoop c endB fetch pfail cid cname fuel s).acc.blocksIndexed
                extrinsicsIndexed :=
                  (runLoop c endB fetch pfail cid cname fuel s).acc.extrinsicsIndexed
                eventsIndexed :=
                  (runLoop c endB fetch pfail cid cname fuel s).acc.eventsIndexed
                isComplete := false
                targetEndBlock := some endB }]) ∧
      (runLoop c endB fetch pfail cid cname fuel s).trace.getLast? =
        some (Op.updateProgress ((h : Int) - 1)) := by
  intro fuel
  induction fuel with
  | zero =>
    intro s h hout
    exact absurd hout (by simp [runLoop])
  | succ fuel ih =>
    intro s h hout
    by_cases hdone : endB < s.currentBlock
    · rw [runLoop_done c endB fetch pfail cid cname fuel s hdone] at hout ⊢
      exact absurd hout (by simp)
    · have hle : s.currentBlock ≤ endB := by omega
      cases hq : (fillQueue c endB (endB + 1 - s.currentBlock) s).fetchQueue with
      | nil =>
        rw [runLoop_emptyQueue c endB fetch pfail cid cname fuel s hle hq] at hout ⊢
        exact ih _ h hout
      | cons g rest =>
        cases hf : fetch g with
        | pruned =>
          rw [runLoop_pruned c endB fetch pfail cid cname fuel s g rest hle hq hf] at hout ⊢
          exact ih _ h hout
        | fatalError =>
          rw [runLoop_fatal c endB fetch pfail cid cname fuel s g rest hle hq hf] at hout
          exact absurd hout (by simp)
        | ok raw =>
          cases hp : pfail g with
          | true =>
            rw [runLoop_pfail c endB fetch pfail cid cname fuel s g rest raw hle hq hf hp]
              at hout ⊢
            simp only [RunOutcome.failed.injEq] at hout
            subst hout
            refine ⟨⟨(popQueue (fillQueue c endB (endB + 1 - s.currentBlock) s)
              rest).store.progressLog, ?_⟩, ?_⟩
            · have hpc := pinProgress_counters cid cname endB g
                (popQueue (fillQueue c endB (endB + 1 - s.currentBlock) s) rest)
              simp only [pinProgress_progressLog, hpc.1, hpc.2.1, hpc.2.2]
            · simp [pinProgress_op]
          | false =>
            rw [runLoop_ok c endB fetch pfail cid cname fuel s g rest raw hle hq hf hp]
              at hout ⊢
            simp only at hout
            obtain ⟨⟨t, hlog⟩, htrace⟩ := ih (processBlock cid cname endB g raw
              (popQueue (fillQueue c endB (endB + 1 - s.currentBlock) s) rest)).1 h hout
            have hne : (runLoop c endB fetch pfail cid cname fuel
                (processBlock cid cname endB g raw
                  (popQueue (fillQueue c endB (endB + 1 - s.currentBlock) s)
                    rest)).1).trace ≠ [] := by
              intro hnil
              rw [hnil] at htrace
              simp at htrace
            refine ⟨⟨t, ?_⟩, ?_⟩
            · simpa using hlog
            · simp only
              rw [List.getLast?_append_of_ne_nil _ hne]
              exact htrace

/-- The failing height of a run is one of the currently queued heights or a
height the cursor has not yet issued. -/
theorem runLoop_failed_mem (c : Int) (endB : Nat) (fetch : Nat → FetchOutcome)
    (pfail : Nat → Bool) (cid : Nat) (cname : String) :
    ∀ (fuel : Nat) (s : RunAcc) (h : Nat),
      (runLoop c endB fetch pfail cid cname fuel s).outcome = RunOutcome.failed h →
      h ∈ s.fetchQueue ∨ s.currentBlock ≤ h := by
  intro fuel
  induction fuel with
  | zero =>
    intro s h hout
    exact absurd hout (by simp [runLoop])
  | succ fuel ih =>
    intro s h hout
    by_cases hdone : endB < s.currentBlock
    · rw [runLoop_done c endB fetch pfail cid cname fuel s hdone] at hout
      exact absurd hout (by simp)
    · have hle : s.currentBlock ≤ endB := by omega
      have hcble := fillQueue_cb_le c endB (endB + 1 - s.currentBlock) s
      cases hq : (fillQueue c endB (endB + 1 - s.currentBlock) s).fetchQueue with
      | nil =>
        rw [runLoop_emptyQueue c endB fetch pfail cid cname fuel s hle hq] at hout
        rcases ih _ h hout with hmem | hcb
        · rw [hq] at hmem
          simp at hmem
        · exact Or.inr (Nat.le_trans hcble hcb)
      | cons g rest =>
        cases hf : fetch g with
        | pruned =>
          rw [runLoop_pruned c endB fetch pfail cid cname fuel s g rest hle hq hf] at hout
          rcases ih _ h hout with hmem | hcb
          · rw [popQueue_fetchQueue] at hmem
            have : h ∈ (fillQueue c endB (endB + 1 - s.currentBlock) s).fetchQueue := by
              rw [hq]; exact List.mem_cons_of_mem g hmem
            rcases fillQueue_mem c endB _ s h this with hm2 | hc2
            · exact Or.inl hm2
            · exact Or.inr hc2
          · rw [popQueue_currentBlock] at hcb
            exact Or.inr (Nat.le_trans hcble hcb)
        | fatalError =>
          rw [runLoop_fatal c endB fetch pfail cid cname fuel s g rest hle hq hf] at hout
          exact absurd hout (by simp)
        | ok raw =>
          cases hp : pfail g with
          | true =>
            rw [runLoop_pfail c endB fetch pfail cid cname fuel s g rest raw hle hq hf hp]
              at hout
            simp only [RunOutcome.failed.injEq] at hout
            subst hout
            have hgmem : g ∈ (fillQueue c endB (endB + 1 - s.currentBlock) s).fetchQueue := by
              rw [hq]; exact List.mem_cons_self g rest
            rcases fillQueue_mem c endB _ s g hgmem with hm2 | hc2
            · exact Or.inl hm2
            · exact Or.inr hc2
          | false =>
            rw [runLoop_ok c endB fetch pfail cid cname fuel s g rest raw hle hq hf hp]
              at hout
            simp only at hout
            rcases ih _ h hout with hmem | hcb
            · rw [processBlock_fetchQueue, popQueue_fetchQueue] at hmem
              have : h ∈ (fillQueue c endB (endB + 1 - s.currentBlock) s).fetchQueue := by
                rw [hq]; exact List.mem_cons_of_mem g hmem
              rcases fillQueue_mem c endB _ s h this with hm2 | hc2
              · exact Or.inl hm2
              · exact Or.inr hc2
            · rw [processBlock_currentBlock, popQueue_currentBlock] at hcb
              exact Or.inr (Nat.le_trans hcble hcb)

/-- No height at or beyond the failing height is ever persisted: every
persisted height of a failed run is strictly below the failing one. -/
theorem runLoop_failed_persist_lt (c : Int) (endB : Nat) (fetch : Nat → FetchOutcome)
    (pfail : Nat → Bool) (cid : Nat) (cname : String) :
    ∀ (fuel : Nat) (s : RunAcc) (hfail : Nat),
      ConsecTo s.fetchQueue s.currentBlock →
      (runLoop c endB fetch pfail cid cname fuel s).outcome = RunOutcome.failed hfail →
      ∀ g ∈ persistHeights (runLoop c endB fetch pfail cid cname fuel s).trace,
        g < hfail := by
  intro fuel
  induction fuel with
  | zero =>
    intro s hfail _ hout
    exact absurd hout (by simp [runLoop])
  | succ fuel ih =>
    intro s hfail hcons hout
    by_cases hdone : endB < s.currentBlock
    · rw [runLoop_done c endB fetch pfail cid cname fuel s hdone] at hout
      exact absurd hout (by simp)
    · have hle : s.currentBlock ≤ endB := by omega
      have hcons1 := fillQueue_consec c endB (endB + 1 - s.currentBlock) s hcons
      cases hq : (fillQueue c endB (endB + 1 - s.currentBlock) s).fetchQueue with
      | nil =>
        rw [runLoop_emptyQueue c endB fetch pfail cid cname fuel s hle hq] at hout ⊢
        exact ih _ hfail hcons1 hout
      | cons g rest =>
        have hcons2 : ConsecTo (g :: rest)
            (fillQueue c endB (endB + 1 - s.currentBlock) s).currentBlock := hq ▸ hcons1
        cases hf : fetch g with
        | pruned =>
          rw [runLoop_pruned c endB fetch pfail cid cname fuel s g rest hle hq hf] at hout ⊢
          refine ih _ hfail ?_ hout
          simp only [popQueue_fetchQueue, popQueue_currentBlock]
          exact hcons2.2
        | fatalError =>
          rw [runLoop_fatal c endB fetch pfail cid cname fuel s g rest hle hq hf] at hout
          exact absurd hout (by simp)
        | ok raw =>
          cases hp : pfail g with
          | true =>
            rw [runLoop_pfail c endB fetch pfail cid cname fuel s g rest raw hle hq hf hp]
              at hout ⊢
            intro x hx
            simp [pinProgress_op, persistHeights] at hx
          | false =>
            rw [runLoop_ok c endB fetch pfail cid cname fuel s g rest raw hle hq hf hp]
              at hout ⊢
            simp only at hout
            have hmem := runLoop_failed_mem c endB fetch pfail cid cname fuel
              (processBlock cid cname endB g raw
                (popQueue (fillQueue c endB (endB + 1 - s.currentBlock) s) rest)).1
              hfail hout
            rw [processBlock_fetchQueue, processBlock_currentBlock, popQueue_fetchQueue,
              popQueue_currentBlock] at hmem
            have hgfail : g < hfail := by
              rcases hmem with hmem2 | hcb
              · exact consecTo_head_lt rest g _ hcons2 hfail hmem2
              · have := hcons2.1
                omega
            intro x hx
            simp only [processBlock_trace, List.cons_append, List.nil_append,
              persistHeights_group, List.mem_cons] at hx
            rcases hx with rfl | hx2
            · exact hgfail
            · refine ih _ hfail ?_ hout x hx2
              simp only [processBlock_fetchQueue, processBlock_currentBlock,
                popQueue_fetchQueue, popQueue_currentBlock]
              exact hcons2.2

/-! ## Non-positive concurrency: the fill loop admits nothing -/

/-- With `concurrency ≤ 0` the fill guard `fetchQueue.length < concurrency`
is false from the start, so `fillQueue` is the identity. -/
theorem fillQueue_nonpos (c : Int) (endB : Nat) (hc : c ≤ 0) :
    ∀ (k : Nat) (s : RunAcc), fillQueue c endB k s = s := by
  intro k
  cases k with
  | zero => intro s; rfl
  | succ k =>
    intro s
    have hng : ¬(((s.fetchQueue.length : Int) < c) ∧ s.currentBlock ≤ endB) := by
      intro hcon
      have h1 := hcon.1
      have h2 : (0 : Int) ≤ (s.fetchQueue.length : Int) := Int.ofNat_nonneg _
      omega
    simp [fillQueue, hng]

/-- With `concurrency ≤ 0` and a non-empty remaining range, the outer loop
spins forever: no fetch is ever admitted, no write or callback happens, the
state never changes, and the run never terminates (it exhausts any amount of
fuel). -/
theorem runLoop_nonpos_spins (c : Int) (endB : Nat) (fetch : Nat → FetchOutcome)
    (pfail : Nat → Bool) (cid : Nat) (cname : String) (hc : c ≤ 0) :
    ∀ (fuel : Nat) (s : RunAcc), s.fetchQueue = [] → s.currentBlock ≤ endB →
      runLoop c endB fetch pfail cid cname fuel s =
        { acc := s, callbacks := [], trace := [], outcome := RunOutcome.outOfFuel } := by
  intro fuel
  induction fuel with
  | zero => intro s _ _; rfl
  | succ fuel ih =>
    intro s hq hle
    have hfq : (fillQueue c endB (endB + 1 - s.currentBlock) s).fetchQueue = [] := by
      rw [fillQueue_nonpos c endB hc]
      exact hq
    rw [runLoop_emptyQueue c endB fetch pfail cid cname fuel s hle hfq]
    rw [fillQueue_nonpos c endB hc]
    exact ih s hq hle

/-! ## Success/failure classification of one extrinsic (C10 support) -/

/-- The scan's match test: the record's phase is apply-extrinsic at `idx`. -/
def isApplyAt (idx : Nat) (ev : RawEvent) : Bool :=
  match ev.phase with
  | Phase.applyExtrinsic i => i == idx
  | _ => false

/-- A record that does not match at `idx`, or matches but is neither marker,
leaves the accumulator untouched. -/
theorem statusStep_skip (idx : Nat) (acc : Bool × Option String) (ev : RawEvent)
    (hno : (isApplyAt idx ev && (ev.isSuccessEvt || ev.isFailedEvt)) = false) :
    statusStep idx acc ev = acc := by
  unfold statusStep
  cases hph : ev.phase with
  | applyExtrinsic i =>
    simp only [isApplyAt, hph, Bool.and_eq_false_iff] at hno
    rcases hno with hno | hno
    · simp [hno]
    · simp only [Bool.or_eq_false_iff] at hno
      simp [hno.1, hno.2]
  | finalization => rfl
  | initialization => rfl

/-- The last scan of a whole list appended with one more record. -/
theorem extrinsicStatus_append (events : List RawEvent) (ev : RawEvent) (idx : Nat) :
    extrinsicStatus (events ++ [ev]) idx =
      statusStep idx (extrinsicStatus events idx) ev := by
  simp [extrinsicStatus, List.foldl_append]

/-- With no matching apply-phase record at all, the scan leaves the initial
`success = false`, `error = undefined`. -/
theorem extrinsicStatus_no_match (idx : Nat) :
    ∀ (events : List RawEvent),
      (∀ ev ∈ events, isApplyAt idx ev = false) →
      extrinsicStatus events idx = (false, none) := by
  intro events
  induction events with
  | nil => intro _; rfl
  | cons ev rest ih =>
    intro hall
    have hstep : statusStep idx (false, none) ev = (false, none) := by
      apply statusStep_skip
      rw [hall ev (List.mem_cons_self ev rest)]
      rfl
    have : extrinsicStatus (ev :: rest) idx = rest.foldl (statusStep idx) (false, none) := by
      simp [extrinsicStatus, hstep]
    rw [this]
    exact ih fun e he => hall e (List.mem_cons_of_mem ev he)

/-- The recorded success flag equals the success-marker status of the last
matching `ExtrinsicSuccess`/`ExtrinsicFailed` record in list order. -/
theorem extrinsicStatus_last_marker (idx : Nat) :
    ∀ (events : List RawEvent) (m : RawEvent),
      (events.filter fun ev =>
        isApplyAt idx ev && (ev.isSuccessEvt || ev.isFailedEvt)).getLast? = some m →
      (extrinsicStatus events idx).1 = m.isSuccessEvt := by
  intro events
  induction events using List.reverseRecOn with
  | nil => intro m hm; simp at hm
  | append_singleton l e ih =>
    intro m hm
    rw [List.filter_append] at hm
    rw [extrinsicStatus_append]
    cases he : (isApplyAt idx e && (e.isSuccessEvt || e.isFailedEvt)) with
    | false =>
      rw [statusStep_skip idx _ e he]
      simp only [List.filter_cons, he, Bool.false_eq_true, if_false, List.filter_nil,
        List.append_nil] at hm
      exact ih m hm
    | true =>
      have hfe : List.filter (fun ev =>
          isApplyAt idx ev && (ev.isSuccessEvt || ev.isFailedEvt)) [e] = [e] := by
        simp [List.filter_cons, he]
      rw [hfe, List.getLast?_concat] at hm
      injection hm with hme
      subst hme
      simp only [Bool.and_eq_true] at he
      have happly := he.1
      unfold statusStep
      cases hph : e.phase with
      | applyExtrinsic i =>
        have hieq : (i == idx) = true := by
          have h2 := he.1
          unfold isApplyAt at h2
          rw [hph] at h2
          exact h2
        cases hs : e.isSuccessEvt with
        | true => simp [hieq, hs]
        | false =>
          have hfail : e.isFailedEvt = true := by
            rcases Bool.or_eq_true_iff.mp he.2 with h1 | h1
            · rw [hs] at h1; exact absurd h1 (by simp)
            · exact h1
          simp [hieq, hs, hfail]
      | finalization =>
        have h2 := he.1
        unfold isApplyAt at h2
        rw [hph] at h2
        exact absurd h2 (by simp)
      | initialization =>
        have h2 := he.1
        unfold isApplyAt at h2
        rw [hph] at h2
        exact absurd h2 (by simp)

/-! ## Gap detector: the scan loop computes the spec's jump ranges -/

/-- The fold of the scan loop accumulates exactly the jump ranges. -/
theorem foldl_missingStep :
    ∀ (bs : List Nat) (expected : Nat) (acc : List (Int × Int)),
      (bs.foldl missingStep (expected, acc)).2 = acc ++ gapRangesSpec expected bs := by
  intro bs
  induction bs with
  | nil => intro expected acc; simp [gapRangesSpec]
  | cons b rest ih =>
    intro expected acc
    by_cases hlt : expected < b
    · have hstep : missingStep (expected, acc) b =
          (b + 1, acc ++ [((expected : Int), (b : Int) - 1)]) := by
        simp [missingStep, hlt]
      rw [List.foldl_cons, hstep, ih]
      simp [gapRangesSpec, hlt]
    · have hstep : missingStep (expected, acc) b = (b + 1, acc) := by
        simp [missingStep, hlt]
      rw [List.foldl_cons, hstep, ih]
      simp [gapRangesSpec, hlt]

/-- In the non-degenerate case, `findMissingBlocks` is exactly the spec's
description: jump ranges plus the trailing range. -/
theorem findMissingBlocks_eq_spec (p : ScanProgressDocument) (bs : List Nat)
    (hne : bs ≠ []) (hlast : p.lastIndexedBlock ≠ 0) :
    findMissingBlocks (some p) bs = findMissingBlocksSpec bs p.lastIndexedBlock := by
  simp only [findMissingBlocks, findMissingBlocksSpec]
  rw [if_neg hlast]
  have hempty : bs.isEmpty = false := by
    cases bs with
    | nil => exact absurd rfl hne
    | cons a l => rfl
  simp only [hempty, Bool.false_eq_true, if_false]
  rw [foldl_missingStep bs 0 []]
  simp only [List.nil_append]
  by_cases htrail : (bs.getLast! : Int) < p.lastIndexedBlock
  · rw [if_pos htrail, if_pos htrail]
  · rw [if_neg htrail, if_neg htrail]
    simp

/-! ## Concrete runs used by witnesses and counterexamples -/

/-- Every height fetches successfully. -/
def okFetch : Nat → FetchOutcome := fun _ => FetchOutcome.ok okBlock

/-- Every height is pruned. -/
def allPruned : Nat → FetchOutcome := fun _ => FetchOutcome.pruned

/-- Height 0 is pruned, everything else fetches successfully. -/
def prunedAt0 : Nat → FetchOutcome :=
  fun h => if h == 0 then FetchOutcome.pruned else FetchOutcome.ok okBlock

/-- The normalize/persist section never throws. -/
def noFail : Nat → Bool := fun _ => false

/-- The normalize/persist section throws at height 1. -/
def failAt1 : Nat → Bool := fun h => h == 1

/-- `processBlock` appends one extrinsic document per raw extrinsic. -/
theorem processBlock_extrinsics_store (cid : Nat) (cname : String) (endB h : Nat)
    (raw : RawBlock) (s : RunAcc) :
    (processBlock cid cname endB h raw s).1.store.extrinsics.length =
      s.store.extrinsics.length + raw.extrinsics.length := by
  simp [processBlock, mapWithIndex_length]

/-! ## The claims -/

/-- C1: for every run with concurrency at least 1, the trace of persistence
operations consists of whole per-height groups — block insert, transaction
bulk-insert, event bulk-insert, then that height's progress update — in
strictly increasing height order (possibly closed by one pinned progress
write), so persistence and the progress update for height `h` complete
before persistence begins for any later height, regardless of how the
concurrent fetch promises settle (the loop awaits the queue head, so fetch
completion order is not observable). -/
theorem claim_c1_ordering (c : Int) (_hc : 1 ≤ c) (endB : Nat)
    (fetch : Nat → FetchOutcome) (pfail : Nat → Bool) (cid : Nat) (cname : String)
    (fuel start b0 x0 e0 : Nat) :
    wfTrace none (runLoop c endB fetch pfail cid cname fuel
      (mkInitAcc start b0 x0 e0)).trace = true := by
  apply runLoop_wfTrace
  · exact trivial
  · intro l hl
    exact absurd hl (by simp)

/-- Witness for C1 at concurrency 2 over heights 0..3. -/
theorem claim_c1_ordering_witness :
    (1 : Int) ≤ 2 ∧
    wfTrace none (runLoop 2 3 okFetch noFail 1 "devnet" 10
      (mkInitAcc 0 0 0 0)).trace = true :=
  ⟨by decide, claim_c1_ordering 2 (by decide) 3 okFetch noFail 1 "devnet" 10 0 0 0 0⟩

/-- C2 counterexample: with a progress record at `lastIndexedBlock = 5` and
resolved end height 5, the resolved start is 0, not 6 — the resume rule has
the extra guard `lastIndexedBlock < endBlock`. -/
theorem claim_c2_counterexample :
    resolveStartBlock none (some progressAt5) 5 = 0 ∧
    progressAt5.lastIndexedBlock = 5 ∧
    resolveStartBlock none (some progressAt5) 5 ≠ progressAt5.lastIndexedBlock + 1 := by
  decide

/-- C2 (amended): with no explicit start, the resolved start is
`lastIndexedBlock + 1` when a progress record exists with
`lastIndexedBlock <` the resolved end height; it is 0 when no record exists,
and also 0 when the record's `lastIndexedBlock ≥` the end height. -/
theorem claim_c2_resume (p : ScanProgressDocument) (endB : Nat) :
    (p.lastIndexedBlock < (endB : Int) →
      resolveStartBlock none (some p) endB = p.lastIndexedBlock + 1) ∧
    (¬ p.lastIndexedBlock < (endB : Int) →
      resolveStartBlock none (some p) endB = 0) ∧
    (∀ e : Nat, resolveStartBlock none none e = 0) := by
  refine ⟨fun h => ?_, fun h => ?_, fun e => rfl⟩
  · simp [resolveStartBlock, h]
  · simp [resolveStartBlock, h]

/-- Witness for C2 at `lastIndexedBlock = 5 < endBlock = 7`. -/
theorem claim_c2_resume_witness :
    progressAt5.lastIndexedBlock < ((7 : Nat) : Int) ∧
    resolveStartBlock none (some progressAt5) 7 = progressAt5.lastIndexedBlock + 1 :=
  ⟨by decide, (claim_c2_resume progressAt5 7).1 (by decide)⟩

/-- C3: when the normalize/persist section throws at height `h`, the run's
final progress upsert — also its final operation — is the record pinned at
`h - 1`, carrying the counters accumulated strictly before `h` (seed plus
the contribution of the persisted heights, all of which are below `h`) and
`isComplete = false`; the error propagates (`failed h`) and no height at or
beyond `h` is ever persisted in that invocation. -/
theorem claim_c3_failure_pin (c : Int) (endB : Nat) (fetch : Nat → FetchOutcome)
    (pfail : Nat → Bool) (cid : Nat) (cname : String) (fuel start b0 x0 e0 h : Nat)
    (hout : (runLoop c endB fetch pfail cid cname fuel
      (mkInitAcc start b0 x0 e0)).outcome = RunOutcome.failed h) :
    (∃ t, (runLoop c endB fetch pfail cid cname fuel
        (mkInitAcc start b0 x0 e0)).acc.store.progressLog =
      t ++ [{ chainId := cid
              chainName := cname
              lastIndexedBlock := (h : Int) - 1
              blocksIndexed := b0 + (persistHeights (runLoop c endB fetch pfail cid cname
                fuel (mkInitAcc start b0 x0 e0)).trace).length
              extrinsicsIndexed := x0 + extSum fetch (persistHeights (runLoop c endB fetch
                pfail cid cname fuel (mkInitAcc start b0 x0 e0)).trace)
              eventsIndexed := e0 + evSum fetch (persistHeights (runLoop c endB fetch
                pfail cid cname fuel (mkInitAcc start b0 x0 e0)).trace)
              isComplete := false
              targetEndBlock := some endB }]) ∧
    (runLoop c endB fetch pfail cid cname fuel
      (mkInitAcc start b0 x0 e0)).trace.getLast? =
        some (Op.updateProgress ((h : Int) - 1)) ∧
    (∀ g ∈ persistHeights (runLoop c endB fetch pfail cid cname fuel
      (mkInitAcc start b0 x0 e0)).trace, g < h) := by
  obtain ⟨⟨t, hlog⟩, htr⟩ := runLoop_failed_pin c endB fetch pfail cid cname fuel
    (mkInitAcc start b0 x0 e0) h hout
  have hcnt := runLoop_counts c endB fetch pfail cid cname fuel (mkInitAcc start b0 x0 e0)
  have hb0 : (mkInitAcc start b0 x0 e0).blocksIndexed = b0 := rfl
  have hx0 : (mkInitAcc start b0 x0 e0).extrinsicsIndexed = x0 := rfl
  have he0 : (mkInitAcc start b0 x0 e0).eventsIndexed = e0 := rfl
  rw [hb0, hx0, he0] at hcnt
  rw [hcnt.1, hcnt.2.1, hcnt.2.2] at hlog
  refine ⟨⟨t, hlog⟩, htr, ?_⟩
  exact runLoop_failed_persist_lt c endB fetch pfail cid cname fuel
    (mkInitAcc start b0 x0 e0) h trivial hout

/-- Witness for C3: a run over 0..5 with a persist error at height 1. -/
theorem claim_c3_failure_pin_witness :
    (runLoop 1 5 okFetch failAt1 1 "devnet" 10 (mkInitAcc 0 2 3 4)).outcome =
        RunOutcome.failed 1 ∧
    ((∃ t, (runLoop 1 5 okFetch failAt1 1 "devnet" 10
        (mkInitAcc 0 2 3 4)).acc.store.progressLog =
      t ++ [{ chainId := 1
              chainName := "devnet"
              lastIndexedBlock := (1 : Int) - 1
              blocksIndexed := 2 + (persistHeights (runLoop 1 5 okFetch failAt1 1 "devnet"
                10 (mkInitAcc 0 2 3 4)).trace).length
              extrinsicsIndexed := 3 + extSum okFetch (persistHeights (runLoop 1 5 okFetch
                failAt1 1 "devnet" 10 (mkInitAcc 0 2 3 4)).trace)
              eventsIndexed := 4 + evSum okFetch (persistHeights (runLoop 1 5 okFetch
                failAt1 1 "devnet" 10 (mkInitAcc 0 2 3 4)).trace)
              isComplete := false
              targetEndBlock := some 5 }]) ∧
    (runLoop 1 5 okFetch failAt1 1 "devnet" 10
      (mkInitAcc 0 2 3 4)).trace.getLast? = some (Op.updateProgress ((1 : Int) - 1)) ∧
    (∀ g ∈ persistHeights (runLoop 1 5 okFetch failAt1 1 "devnet" 10
      (mkInitAcc 0 2 3 4)).trace, g < 1)) :=
  ⟨by decide,
    claim_c3_failure_pin 1 5 okFetch failAt1 1 "devnet" 10 0 2 3 4 1 (by decide)⟩

/-- C4 (failing input, range 0..1 with concurrency 2 and height 0 pruned):
the pruned height 0 is skipped with no writes, no counter movement and no
failure — but the loop then exits because the issue cursor (2) has passed
`endBlock` (1), abandoning queued height 1, whose fetch would have
succeeded.  The run reports itself completed with nothing persisted, so the
skip does not proceed to the next height. -/
theorem claim_c4_pruned_skip :
    (runLoop 2 1 prunedAt0 noFail 1 "devnet" 10 (mkInitAcc 0 0 0 0)).outcome =
        RunOutcome.completed ∧
    (runLoop 2 1 prunedAt0 noFail 1 "devnet" 10 (mkInitAcc 0 0 0 0)).trace = [] ∧
    (runLoop 2 1 prunedAt0 noFail 1 "devnet" 10 (mkInitAcc 0 0 0 0)).callbacks = [] ∧
    (runLoop 2 1 prunedAt0 noFail 1 "devnet" 10
      (mkInitAcc 0 0 0 0)).acc.store.blocks = [] ∧
    (runLoop 2 1 prunedAt0 noFail 1 "devnet" 10
      (mkInitAcc 0 0 0 0)).acc.store.progressLog = [] ∧
    (runLoop 2 1 prunedAt0 noFail 1 "devnet" 10
      (mkInitAcc 0 0 0 0)).acc.blocksIndexed = 0 ∧
    (runLoop 2 1 prunedAt0 noFail 1 "devnet" 10
      (mkInitAcc 0 0 0 0)).acc.currentBlock = 2 ∧
    prunedAt0 1 = FetchOutcome.ok okBlock := by
  decide

/-- C5: the gap detector returns the empty list when no progress record
exists or its `lastIndexedBlock` is 0; otherwise, on any non-empty ascending
height list, it returns exactly the jump ranges `[expected, found-1]` plus
the trailing range up to `lastIndexedBlock` when the highest persisted
height is below it; in particular heights {0,1,2,5,6,9} with
`lastIndexedBlock = 9` yield exactly [3,4] and [7,8]. -/
theorem claim_c5_gap_detector :
    (∀ bs : List Nat, findMissingBlocks none bs = []) ∧
    (∀ (p : ScanProgressDocument) (bs : List Nat),
      p.lastIndexedBlock = 0 → findMissingBlocks (some p) bs = []) ∧
    (∀ (p : ScanProgressDocument) (bs : List Nat), bs ≠ [] → p.lastIndexedBlock ≠ 0 →
      findMissingBlocks (some p) bs = findMissingBlocksSpec bs p.lastIndexedBlock) ∧
    findMissingBlocks (some progressAt9) [0, 1, 2, 5, 6, 9] = [(3, 4), (7, 8)] := by
  refine ⟨fun bs => rfl, fun p bs h => ?_, fun p bs h1 h2 =>
    findMissingBlocks_eq_spec p bs h1 h2, by decide⟩
  simp [findMissingBlocks, h]

/-- Witness for C5 on the spec's own example. -/
theorem claim_c5_gap_detector_witness :
    ([0, 1, 2, 5, 6, 9] : List Nat) ≠ [] ∧
    progressAt9.lastIndexedBlock ≠ 0 ∧
    findMissingBlocks (some progressAt9) [0, 1, 2, 5, 6, 9] =
      findMissingBlocksSpec [0, 1, 2, 5, 6, 9] progressAt9.lastIndexedBlock :=
  ⟨by decide, by decide,
    claim_c5_gap_detector.2.2.1 progressAt9 [0, 1, 2, 5, 6, 9] (by decide) (by decide)⟩

/-- C6 (failing input, concurrency 0 over the non-empty range 0..0): the
loop admits no fetch (the fill guard `fetchQueue.length < concurrency` is
never true), changes nothing, and spins without terminating — it exhausts
every fuel bound with the state untouched.  No normalization of the
non-positive concurrency value exists in the code. -/
theorem claim_c6_no_normalization :
    ∀ fuel : Nat,
      runLoop 0 0 okFetch noFail 1 "devnet" fuel (mkInitAcc 0 0 0 0) =
        { acc := mkInitAcc 0 0 0 0
          callbacks := []
          trace := []
          outcome := RunOutcome.outOfFuel } :=
  fun fuel => runLoop_nonpos_spins 0 0 okFetch noFail 1 "devnet" (by decide) fuel
    (mkInitAcc 0 0 0 0) rfl (by decide)

/-- C7 counterexample: an error whose message contains both a pruned-state
substring and a network substring satisfies both classifiers, so the two
predicates are not disjoint. -/
theorem claim_c7_counterexample :
    isStatePrunedError { message := "unknown block timeout", code := ErrCode.none } = true ∧
    isNetworkError { message := "unknown block timeout", code := ErrCode.none } = true := by
  decide

/-- C7 (amended): the predicates can overlap, but each error value is still
handled as exactly one of transient-retry / pruned-skip / fatal-propagate,
because `fetchBlockData` applies the network classifier first (inside the
retry wrapper) and tests pruned-state only on errors that were not
retried. -/
theorem claim_c7_classification (e : JsError) :
    (classifyFetchError e = ErrorAction.retry ↔ isNetworkError e = true) ∧
    (classifyFetchError e = ErrorAction.skipPruned ↔
      (isNetworkError e = false ∧ isStatePrunedError e = true)) ∧
    (classifyFetchError e = ErrorAction.propagate ↔
      (isNetworkError e = false ∧ isStatePrunedError e = false)) := by
  unfold classifyFetchError
  cases hn : isNetworkError e with
  | true => simp [hn]
  | false =>
    cases hsp : isStatePrunedError e with
    | true => simp [hn, hsp]
    | false => simp [hn, hsp]

/-- C8 counterexample: an extrinsic whose second argument fails to decode is
persisted with the first argument still present — the mapping degrades to
the decoded prefix, not to the empty mapping. -/
theorem claim_c8_counterexample :
    partialArgsExtrinsic.argVals = [some "callData", none] ∧
    (mkExtrinsicDoc 1 0 "0xb" 1000 [] 0 partialArgsExtrinsic).args =
      [("call", "callData")] ∧
    (mkExtrinsicDoc 1 0 "0xb" 1000 [] 0 partialArgsExtrinsic).args ≠ [] := by
  decide

/-- C8 (amended): when argument decoding fails, the transaction record is
still built and persisted for its height — one extrinsic document per raw
extrinsic, unconditionally — and its argument mapping is exactly the
longest prefix of declared arguments that decoded before the failure
(empty when metadata access itself fails or the first argument fails). -/
theorem claim_c8_partial_args :
    (∀ (cid h : Nat) (bh : String) (ts : Nat) (evs : List RawEvent) (i : Nat)
      (ex : RawExtrinsic),
      (mkExtrinsicDoc cid h bh ts evs i ex).args =
        if ex.metaOk then decodeArgsSpec ex.argNames ex.argVals else []) ∧
    (∀ (cid : Nat) (cname : String) (endB h : Nat) (raw : RawBlock) (s : RunAcc),
      (processBlock cid cname endB h raw s).1.store.extrinsics.length =
        s.store.extrinsics.length + raw.extrinsics.length) := by
  refine ⟨fun cid h bh ts evs i ex => ?_, processBlock_extrinsics_store⟩
  simp [mkExtrinsicDoc, extrinsicArgs, decodeArgs_eq_spec]

/-- C9 counterexample: a run whose only height (0) is skipped as pruned
completes without invoking the progress callback at all — skipped heights
produce no callback. -/
theorem claim_c9_counterexample :
    (runLoop 1 0 allPruned noFail 1 "devnet" 5 (mkInitAcc 0 0 0 0)).outcome =
        RunOutcome.completed ∧
    (runLoop 1 0 allPruned noFail 1 "devnet" 5 (mkInitAcc 0 0 0 0)).callbacks = [] := by
  decide

/-- C9 (amended): the progress callback is invoked exactly once per
successfully persisted height, in persistence order, with that height and
the cumulative blocks/extrinsics/events counts (the in-flight fetch count
accompanies them in the payload); pruned-skipped heights trigger no
callback. -/
theorem claim_c9_callbacks (c : Int) (endB : Nat) (fetch : Nat → FetchOutcome)
    (pfail : Nat → Bool) (cid : Nat) (cname : String) (fuel start b0 x0 e0 : Nat) :
    (runLoop c endB fetch pfail cid cname fuel (mkInitAcc start b0 x0 e0)).callbacks.map
        (fun p => (p.lastIndexedBlock, p.blocksIndexed, p.extrinsicsIndexed,
          p.eventsIndexed)) =
      cbSpec fetch b0 x0 e0 (persistHeights (runLoop c endB fetch pfail cid cname fuel
        (mkInitAcc start b0 x0 e0)).trace) :=
  runLoop_callbacks c endB fetch pfail cid cname fuel (mkInitAcc start b0 x0 e0)

/-- C10: a transaction with no matching apply-phase event record is recorded
as `success = false` with no error description; and whenever the
apply-phase records matching the transaction's position include
success/failed markers, the last such marker in list order determines the
recorded success flag. -/
theorem claim_c10_success_classification :
    (∀ (events : List RawEvent) (idx : Nat),
      (∀ ev ∈ events, isApplyAt idx ev = false) →
      extrinsicStatus events idx = (false, none)) ∧
    (∀ (events : List RawEvent) (idx : Nat) (m : RawEvent),
      (events.filter fun ev =>
        isApplyAt idx ev && (ev.isSuccessEvt || ev.isFailedEvt)).getLast? = some m →
      (extrinsicStatus events idx).1 = m.isSuccessEvt) :=
  ⟨fun events idx h => extrinsicStatus_no_match idx events h,
    fun events idx m hm => extrinsicStatus_last_marker idx events m hm⟩

/-- Witness for C10: no matching record at position 3 yields `(false, none)`;
with a success marker then a failed marker both at position 0, the last
marker (failed) determines the flag. -/
theorem claim_c10_success_classification_witness :
    extrinsicStatus [successEvent] 3 = (false, none) ∧
    (extrinsicStatus [successEvent, failedEvent] 0).1 = failedEvent.isSuccessEvt :=
  ⟨claim_c10_success_classification.1 [successEvent] 3 (by decide),
    claim_c10_success_classification.2 [successEvent, failedEvent] 0 failedEvent
      (by decide)⟩
